import Mathlib

/-!
A shallow embedding of the pypest test framework (`pypest.py`): the matcher
engine (`Expectation`), the suite tree model (`TestSuite`, `Test`,
`TestResult`), the registration API (`describe` / `it` / hook registrars) and
the traversal engine (`run_suite` / `run`), together with theorems settling
the specified behaviours.

Python callables are modelled by their observable behaviour at invocation
time: a zero-argument callable either returns normally (`none`) or raises an
exception (`some e`).  Python exceptions are modelled as a class name plus the
message `str(e)` yields.  Machine-level aspects of the source that no claim
touches (wall-clock timing fields and the `Time: ...ms` output line, ANSI
colour constants are kept, the subprocess orchestration layer) are outside the
embedding.
-/

namespace Pypest

/-- A Python exception value: the name of its class and the message that
`str(e)` produces. -/
structure Exn where
  kind : String
  msg : String
deriving DecidableEq

/-- Models Python `isinstance(e, K)` for the exception-class comparisons the
framework performs; the claims under verification never rely on subclass
relationships, so an exact class match is used. -/
def isinstance (e : Exn) (k : String) : Bool :=
  e.kind == k

/-- The chainable wrapper produced by `expect(actual)` (class `Expectation`). -/
structure Expectation (α : Type) where
  actual : α
deriving DecidableEq

/-- Source `expect(actual)`: wraps the value in an `Expectation`. -/
def expect {α : Type} (actual : α) : Expectation α :=
  ⟨actual⟩

/-- Source `Expectation.to_be`: raises `AssertionError` when
`self.actual != expected`, otherwise returns `self`. -/
def Expectation.to_be {α : Type} [BEq α] [ToString α] (e : Expectation α) (expected : α) :
    Except Exn (Expectation α) :=
  if e.actual != expected then
    .error ⟨"AssertionError", "Expected " ++ toString e.actual ++ " to be " ++ toString expected⟩
  else
    .ok e

/-- Source `Expectation.to_equal`: raises `AssertionError` when
`self.actual != expected`, otherwise returns `self`. -/
def Expectation.to_equal {α : Type} [BEq α] [ToString α] (e : Expectation α) (expected : α) :
    Except Exn (Expectation α) :=
  if e.actual != expected then
    .error ⟨"AssertionError", "Expected " ++ toString e.actual ++ " to equal " ++ toString expected⟩
  else
    .ok e

/-- The wrapped value handed to `to_throw`: either a non-callable value, or a
callable whose invocation returns normally (`none`) or raises (`some e`). -/
inductive ThrowsSubject where
  | notCallable
  | callable (callResult : Option Exn)
deriving DecidableEq

/-- Source `Expectation.to_throw`.  Control flow of the source, line by line:
`if not callable(self.actual)` raises `AssertionError` immediately.  Otherwise
the `try` block invokes `self.actual()`; if that call returns normally the
source executes `raise AssertionError("Expected function to throw an
exception, but it didn't")` — and this raise statement sits inside the same
`try` block, so it is caught by the `except Exception as e` clause exactly as
an exception raised by the call itself would be.  The handler re-raises only
when `expected_exception` is given and the caught exception is not an
instance of it; otherwise `return self` runs.  (The kind-mismatch message in
the source interpolates `type(e)`; here the class name stands in for that
representation — no claim depends on its exact rendering.) -/
def Expectation.to_throw (e : Expectation ThrowsSubject) (expected_exception : Option String) :
    Except Exn (Expectation ThrowsSubject) :=
  match e.actual with
  | .notCallable =>
    .error ⟨"AssertionError", "Expected a callable function to test for exceptions"⟩
  | .callable callResult =>
    let caught : Exn :=
      match callResult with
      | some ex => ex
      | none => ⟨"AssertionError", "Expected function to throw an exception, but it didn\x27t"⟩
    match expected_exception with
    | some k =>
      if !(isinstance caught k) then
        .error ⟨"AssertionError",
          "Expected function to throw " ++ k ++ ", but got " ++ caught.kind⟩
      else
        .ok e
    | none => .ok e

/-! ## Suite tree model

`TestSuite` is declared mutually with its own list type `SuiteList` so that
the traversal engine below is structurally recursive (the Python class holds
a plain list `nested_suites`; `SuiteList` is that list).  Hook callables,
like test bodies, are modelled by their behaviour when invoked: `none`
returns normally, `some e` raises `e`. -/

/-- A registered test: a name plus the behaviour of its body (`test_func`). -/
structure Test where
  name : String
  test_func : Option Exn
deriving DecidableEq

mutual
inductive TestSuite where
  | mk (name : String) (tests : List Test)
      (before_each_hooks : List (Option Exn)) (before_all_hooks : List (Option Exn))
      (after_each_hooks : List (Option Exn)) (after_all_hooks : List (Option Exn))
      (nested_suites : SuiteList)
deriving DecidableEq

inductive SuiteList where
  | nil
  | cons (head : TestSuite) (tail : SuiteList)
deriving DecidableEq
end

def TestSuite.name : TestSuite → String
  | .mk n _ _ _ _ _ _ => n

def TestSuite.tests : TestSuite → List Test
  | .mk _ t _ _ _ _ _ => t

def TestSuite.before_each_hooks : TestSuite → List (Option Exn)
  | .mk _ _ beh _ _ _ _ => beh

def TestSuite.before_all_hooks : TestSuite → List (Option Exn)
  | .mk _ _ _ bah _ _ _ => bah

def TestSuite.after_each_hooks : TestSuite → List (Option Exn)
  | .mk _ _ _ _ aeh _ _ => aeh

def TestSuite.after_all_hooks : TestSuite → List (Option Exn)
  | .mk _ _ _ _ _ aah _ => aah

def TestSuite.nested_suites : TestSuite → SuiteList
  | .mk _ _ _ _ _ _ c => c

/-- The `TestSuite.__init__` of the source: a named suite with every list
empty. -/
def TestSuite.empty (name : String) : TestSuite :=
  .mk name [] [] [] [] [] .nil

def SuiteList.toList : SuiteList → List TestSuite
  | .nil => []
  | .cons c rest => c :: rest.toList

/-- The accumulator `TestResult` (the `start_time` / `end_time` wall-clock
fields of the source are outside the embedding; no claim touches them). -/
structure TestResult where
  passed : Nat
  failed : Nat
  errors : List String
deriving DecidableEq

/-- A fresh `TestResult()`. -/
def TestResult.init : TestResult :=
  ⟨0, 0, []⟩

/-! ## Traversal engine

The runner is instrumented with a trace: every suite header line, hook
invocation and test-body invocation appends one `Event`.  An invocation is
identified by the `path` of the suite that owns it — the list of child
indices from the root list down to that suite — together with the hook kind
and the index of the hook in its registration list (for the source, which
distinguishes invocations by which callable object runs, this is exactly the
identity of the callable).  A suite's report line is printed with
`"  " * indent` where `indent = path.length - 1`. -/

/-- The four hook kinds. -/
inductive HookKind where
  | beforeAll
  | beforeEach
  | afterEach
  | afterAll
deriving DecidableEq

/-- One observable step of the traversal. `ctxName` is the name interpolated
into the hook-failure message: the suite name for `beforeAll` / `afterAll`
and the current test name for `beforeEach` / `afterEach`, as in the source. -/
inductive Event where
  | suiteLine (path : List Nat) (suiteName : String)
  | hookRun (path : List Nat) (kind : HookKind) (idx : Nat) (ctxName : String)
      (outcome : Option Exn)
  | testPass (path : List Nat) (idx : Nat) (testName : String)
  | testFail (path : List Nat) (idx : Nat) (testName : String) (msg : String)
deriving DecidableEq

def Event.path : Event → List Nat
  | .suiteLine p _ => p
  | .hookRun p _ _ _ _ => p
  | .testPass p _ _ => p
  | .testFail p _ _ _ => p

/-- The error string the source appends for a failed hook, per kind:
`beforeAll hook failed in '<suite>': <msg>`,
`beforeEach hook failed for '<test>': <msg>`,
`afterEach hook failed for '<test>': <msg>`,
`afterAll hook failed in '<suite>': <msg>`. -/
def hookErrorMsg (kind : HookKind) (ctxName : String) (emsg : String) : String :=
  match kind with
  | .beforeAll => "beforeAll hook failed in \x27" ++ ctxName ++ "\x27: " ++ emsg
  | .beforeEach => "beforeEach hook failed for \x27" ++ ctxName ++ "\x27: " ++ emsg
  | .afterEach => "afterEach hook failed for \x27" ++ ctxName ++ "\x27: " ++ emsg
  | .afterAll => "afterAll hook failed in \x27" ++ ctxName ++ "\x27: " ++ emsg

/-- One `for hook in hooks: try: hook() except Exception as e: ...` loop of
`run_suite`, starting at hook index `i`: a raising hook appends one error
string and the loop continues; the `failed` and `passed` counters are never
touched. -/
def runHooksFrom (res : TestResult) (hooks : List (Option Exn)) (i : Nat)
    (kind : HookKind) (ctxName : String) (path : List Nat) : TestResult × List Event :=
  match hooks with
  | [] => (res, [])
  | h :: rest =>
    let res1 : TestResult :=
      match h with
      | none => res
      | some ex => { res with errors := res.errors ++ [hookErrorMsg kind ctxName ex.msg] }
    let pr := runHooksFrom res1 rest (i + 1) kind ctxName path
    (pr.1, Event.hookRun path kind i ctxName h :: pr.2)

/-- A whole hook loop, from index 0. -/
def runHooks (res : TestResult) (hooks : List (Option Exn)) (kind : HookKind)
    (ctxName : String) (path : List Nat) : TestResult × List Event :=
  runHooksFrom res hooks 0 kind ctxName path

/-- The `try: test.test_func() ...` block of `run_suite`: a returning body
increments `passed`; a raising body increments `failed` and appends
`"<testName>: <message>"` to the errors. -/
def runTestBody (res : TestResult) (t : Test) (i : Nat) (path : List Nat) :
    TestResult × List Event :=
  match t.test_func with
  | none => ({ res with passed := res.passed + 1 }, [Event.testPass path i t.name])
  | some ex =>
    ({ res with failed := res.failed + 1, errors := res.errors ++ [t.name ++ ": " ++ ex.msg] },
     [Event.testFail path i t.name ex.msg])

/-- The `for test in suite.tests:` loop of `run_suite`, from test index `i`:
for each test, this suite's `beforeEach` hooks, then the body, then this
suite's `afterEach` hooks (the `afterEach` loop is reached even when the body
raised, because the body's exception was caught at its own `try`). -/
def runTestsFrom (res : TestResult) (beh aeh : List (Option Exn)) (ts : List Test)
    (i : Nat) (path : List Nat) : TestResult × List Event :=
  match ts with
  | [] => (res, [])
  | t :: rest =>
    let p1 := runHooks res beh .beforeEach t.name path
    let p2 := runTestBody p1.1 t i path
    let p3 := runHooks p2.1 aeh .afterEach t.name path
    let p4 := runTestsFrom p3.1 beh aeh rest (i + 1) path
    (p4.1, p1.2 ++ p2.2 ++ p3.2 ++ p4.2)

mutual
/-- Source `TestRunner.run_suite(suite, indent)`, threading the mutable
`self.result`: the suite's report line, its `beforeAll` hooks, its own tests
(each wrapped in the suite's each-hooks), the nested suites recursively, and
its `afterAll` hooks. -/
def run_suite (res : TestResult) : TestSuite → List Nat → TestResult × List Event
  | .mk name tests beh bah aeh aah children, path =>
    let p1 := runHooks res bah .beforeAll name path
    let p2 := runTestsFrom p1.1 beh aeh tests 0 path
    let p3 := runNested p2.1 children 0 path
    let p4 := runHooks p3.1 aah .afterAll name path
    (p4.1, Event.suiteLine path name :: (p1.2 ++ p2.2 ++ p3.2 ++ p4.2))

/-- The `for nested_suite in suite.nested_suites:` loop: runs each child at
`indent + 1`; the child numbered `i` among its siblings extends the owning
path by `i`. -/
def runNested (res : TestResult) : SuiteList → Nat → List Nat → TestResult × List Event
  | .nil, _, _ => (res, [])
  | .cons c rest, i, path =>
    let p1 := run_suite res c (path ++ [i])
    let p2 := runNested p1.1 rest (i + 1) path
    (p2.1, p1.2 ++ p2.2)
end

/-- ANSI colour constants of the source's `Colors` class (the ones the
summary block uses). -/
def Colors.GREEN : String := "\x1b[92m"

def Colors.RED : String := "\x1b[91m"

def Colors.BOLD : String := "\x1b[1m"

def Colors.RESET : String := "\x1b[0m"

def Colors.DIM : String := "\x1b[2m"

/-- The summary block `run()` prints after the traversal, one list entry per
`print` call (the `Time: ...ms` line, which interpolates a wall-clock float,
is outside the embedding; it consists of `Time: ` plus digits, a dot and
`ms`).  `Passed:` is printed only when `passed > 0`, `Failed:` only when
`failed > 0`, `Total:` always, and when `failed > 0` a `Failures:` header
followed by every recorded error string in order. -/
def summaryLines (res : TestResult) : List String :=
  ["\n" ++ Colors.BOLD ++ "Test Results:" ++ Colors.RESET]
    ++ (if res.passed > 0 then [Colors.GREEN ++ "Passed: " ++ toString res.passed ++ Colors.RESET]
        else [])
    ++ (if res.failed > 0 then [Colors.RED ++ "Failed: " ++ toString res.failed ++ Colors.RESET]
        else [])
    ++ ["Total: " ++ toString (res.passed + res.failed)]
    ++ (if res.failed > 0 then
          ("\n" ++ Colors.RED ++ "Failures:" ++ Colors.RESET)
            :: res.errors.map (fun e => "  " ++ Colors.RED ++ "✗" ++ Colors.RESET ++ " " ++ e)
        else [])

/-- Everything `run()` produces: the final accumulator, the traversal trace,
the summary block, and the returned boolean. -/
structure RunOutput where
  result : TestResult
  trace : List Event
  summary : List String
  returnValue : Bool
deriving DecidableEq

/-- Source `TestRunner.run()`: a fresh `TestResult`, `run_suite` on every
root suite in order (the root numbered `i` has path `[i]`), the summary
block, and the return value `self.result.failed == 0`. -/
def run (roots : SuiteList) : RunOutput :=
  let pr := runNested TestResult.init roots 0 []
  { result := pr.1, trace := pr.2, summary := summaryLines pr.1,
    returnValue := pr.1.failed == 0 }

/-! ## Declarative trace of a run

`suiteTrace` describes, without any state threading, the exact event
sequence claimed for `run_suite`; the characterization theorems below prove
the runner emits precisely this sequence and that the final `TestResult` is a
function of it. -/

/-- The events of one hook loop of kind `kind`, in registration order,
indexed from `i`. -/
def hookEventsFrom (path : List Nat) (kind : HookKind) (ctxName : String) :
    Nat → List (Option Exn) → List Event
  | _, [] => []
  | i, h :: rest => Event.hookRun path kind i ctxName h :: hookEventsFrom path kind ctxName (i + 1) rest

/-- The single event of one test-body invocation. -/
def testEvents (path : List Nat) (i : Nat) (t : Test) : List Event :=
  match t.test_func with
  | none => [Event.testPass path i t.name]
  | some ex => [Event.testFail path i t.name ex.msg]

/-- The events of the per-test loop from test index `i`: for each direct
test, the suite's `beforeEach` hooks, the body, the suite's `afterEach`
hooks. -/
def testsTraceFrom (beh aeh : List (Option Exn)) (path : List Nat) :
    Nat → List Test → List Event
  | _, [] => []
  | i, t :: rest =>
    hookEventsFrom path .beforeEach t.name 0 beh ++ testEvents path i t
      ++ hookEventsFrom path .afterEach t.name 0 aeh
      ++ testsTraceFrom beh aeh path (i + 1) rest

mutual
/-- The claimed event sequence of `run_suite`: the suite's report line, every
`beforeAll` hook in order, each direct test in order wrapped in the each-hook
loops, each child suite recursively in order, every `afterAll` hook in
order. -/
def suiteTrace : TestSuite → List Nat → List Event
  | .mk name tests beh bah aeh aah children, path =>
    Event.suiteLine path name ::
      (hookEventsFrom path .beforeAll name 0 bah
        ++ testsTraceFrom beh aeh path 0 tests
        ++ nestedTrace children 0 path
        ++ hookEventsFrom path .afterAll name 0 aah)

/-- The traces of a run of each suite of a `SuiteList` in order, the first
one numbered `i`. -/
def nestedTrace : SuiteList → Nat → List Nat → List Event
  | .nil, _, _ => []
  | .cons c rest, i, path => suiteTrace c (path ++ [i]) ++ nestedTrace rest (i + 1) path
end

/-- The error strings one event contributes to `result.errors`: one entry per
failing hook (identifying the hook kind and the suite or test name), one
entry per failing test body, nothing otherwise. -/
def eventErrors : Event → List String
  | .suiteLine _ _ => []
  | .hookRun _ kind _ ctxName outcome =>
    match outcome with
    | none => []
    | some ex => [hookErrorMsg kind ctxName ex.msg]
  | .testPass _ _ _ => []
  | .testFail _ _ tn m => [tn ++ ": " ++ m]

/-- All error strings of a trace, in trace order. -/
def traceErrors (tr : List Event) : List String :=
  (tr.map eventErrors).flatten

def Event.isPass : Event → Bool
  | .testPass _ _ _ => true
  | _ => false

def Event.isFail : Event → Bool
  | .testFail _ _ _ _ => true
  | _ => false

/-- How many test bodies of a trace completed without raising. -/
def tracePassed (tr : List Event) : Nat :=
  tr.countP Event.isPass

/-- How many test bodies of a trace raised. -/
def traceFailed (tr : List Event) : Nat :=
  tr.countP Event.isFail

/-- The effect of a trace on the accumulator: `passed` grows by the passing
bodies, `failed` by the raising bodies, `errors` by the trace's error
strings. -/
def applyTrace (res : TestResult) (tr : List Event) : TestResult :=
  { passed := res.passed + tracePassed tr,
    failed := res.failed + traceFailed tr,
    errors := res.errors ++ traceErrors tr }

/-! ## Counting and lookup helpers for the invariant claims -/

mutual
/-- How many test bodies in a suite's whole subtree raise. -/
def suiteFailCount : TestSuite → Nat
  | .mk _ tests _ _ _ _ children =>
    tests.countP (fun t => t.test_func.isSome) + listFailCount children

/-- How many test bodies in the subtrees of a suite list raise. -/
def listFailCount : SuiteList → Nat
  | .nil => 0
  | .cons c rest => suiteFailCount c + listFailCount rest
end

mutual
/-- The suite reached from a suite by a (relative) child-index path. -/
def suiteAtPath : TestSuite → List Nat → Option TestSuite
  | s, [] => some s
  | .mk _ _ _ _ _ _ children, i :: rest => suiteListAt children i rest

/-- The suite reached from a suite list by an index into the list followed by
a child-index path. -/
def suiteListAt : SuiteList → Nat → List Nat → Option TestSuite
  | .nil, _, _ => none
  | .cons c _, 0, rest => suiteAtPath c rest
  | .cons _ tail, i + 1, rest => suiteListAt tail i rest
end

/-- The suite a `run` path addresses: paths assigned by `run` start with the
index of a root suite. -/
def rootAt (roots : SuiteList) : List Nat → Option TestSuite
  | [] => none
  | i :: rest => suiteListAt roots i rest

/-- Whether an event is the invocation of hook number `i` of kind `k` of the
suite at path `p` (the name shown in a failure message and the hook's
behaviour are not part of the identity). -/
def Event.matchesHook (e : Event) (p : List Nat) (k : HookKind) (i : Nat) : Bool :=
  match e with
  | .hookRun p2 k2 i2 _ _ => p2 == p && k2 == k && i2 == i
  | _ => false

/-- How many times hook number `i` of kind `k` of the suite at path `p` runs
in a trace. -/
def countHookRuns (tr : List Event) (p : List Nat) (k : HookKind) (i : Nat) : Nat :=
  tr.countP (fun e => e.matchesHook p k i)

/-- How often one run of a suite invokes hook number `i` of kind `k` of that
same suite, per the spec: each-hooks once per direct test, all-hooks once. -/
def ownHookRuns (s : TestSuite) (k : HookKind) (i : Nat) : Nat :=
  match k with
  | .beforeAll => if i < s.before_all_hooks.length then 1 else 0
  | .beforeEach => if i < s.before_each_hooks.length then s.tests.length else 0
  | .afterEach => if i < s.after_each_hooks.length then s.tests.length else 0
  | .afterAll => if i < s.after_all_hooks.length then 1 else 0

/-- How many times one directly-owned test of a suite with each-hook lists
`beh` / `aeh` invokes hook number `i` of kind `k` of that suite. -/
def perTestHookCount (beh aeh : List (Option Exn)) : HookKind → Nat → Nat
  | .beforeEach, i => if i < beh.length then 1 else 0
  | .afterEach, i => if i < aeh.length then 1 else 0
  | .beforeAll, _ => 0
  | .afterAll, _ => 0

/-! ## Registration API

`RegState` is the mutable registration state of `TestRunner`: the stack of
currently open suites (the current suite is the stack top; the source's
separate `current_suite` field is always kept equal to it) plus the list of
root suites.  The source links a new suite into its parent's `nested_suites`
already at push time through Python aliasing and then fills it in place
while the `describe` body runs; the interpreter below attaches the finished
suite when the stack is popped instead, which is the same state
transformation because while the body runs the registration API reads and
writes only the suite on top of the stack. -/

def SuiteList.snoc : SuiteList → TestSuite → SuiteList
  | .nil, s => .cons s .nil
  | .cons c rest, s => .cons c (rest.snoc s)

/-- Source `self.current_suite.tests.append(test)`. -/
def TestSuite.addTest : TestSuite → Test → TestSuite
  | .mk n t beh bah aeh aah c, t2 => .mk n (t ++ [t2]) beh bah aeh aah c

/-- Appending a hook to the current suite's list of the given kind. -/
def TestSuite.addHook : TestSuite → HookKind → Option Exn → TestSuite
  | .mk n t beh bah aeh aah c, .beforeEach, h => .mk n t (beh ++ [h]) bah aeh aah c
  | .mk n t beh bah aeh aah c, .beforeAll, h => .mk n t beh (bah ++ [h]) aeh aah c
  | .mk n t beh bah aeh aah c, .afterEach, h => .mk n t beh bah (aeh ++ [h]) aah c
  | .mk n t beh bah aeh aah c, .afterAll, h => .mk n t beh bah aeh (aah ++ [h]) c

/-- Source `parent_suite.nested_suites.append(new_suite)`. -/
def TestSuite.addChild : TestSuite → TestSuite → TestSuite
  | .mk n t beh bah aeh aah c, child => .mk n t beh bah aeh aah (c.snoc child)

/-- The registration state of the runner. -/
structure RegState where
  suite_stack : List TestSuite
  root_suites : SuiteList
deriving DecidableEq

/-- The outcome of a registration call: normal return with the new state, or
a propagating Python exception — `raised msg st` carries the runner state at
the moment of the raise (the source raises before mutating anything). -/
inductive RegOutcome where
  | ok (st : RegState)
  | raised (msg : String) (st : RegState)
deriving DecidableEq

/-- Source `TestRunner.it`: raises `RuntimeError` when no suite is open,
leaving the state untouched; otherwise appends a `Test` to the current
suite. -/
def TestRunner.it (st : RegState) (name : String) (test_func : Option Exn) : RegOutcome :=
  match st.suite_stack with
  | [] => .raised "it() must be called inside a describe() block" st
  | cur :: rest => .ok ⟨cur.addTest ⟨name, test_func⟩ :: rest, st.root_suites⟩

/-- Source `TestRunner.before_each`. -/
def TestRunner.before_each (st : RegState) (h : Option Exn) : RegOutcome :=
  match st.suite_stack with
  | [] => .raised "beforeEach() must be called inside a describe() block" st
  | cur :: rest => .ok ⟨cur.addHook .beforeEach h :: rest, st.root_suites⟩

/-- Source `TestRunner.before_all`. -/
def TestRunner.before_all (st : RegState) (h : Option Exn) : RegOutcome :=
  match st.suite_stack with
  | [] => .raised "beforeAll() must be called inside a describe() block" st
  | cur :: rest => .ok ⟨cur.addHook .beforeAll h :: rest, st.root_suites⟩

/-- Source `TestRunner.after_each`. -/
def TestRunner.after_each (st : RegState) (h : Option Exn) : RegOutcome :=
  match st.suite_stack with
  | [] => .raised "afterEach() must be called inside a describe() block" st
  | cur :: rest => .ok ⟨cur.addHook .afterEach h :: rest, st.root_suites⟩

/-- Source `TestRunner.after_all`. -/
def TestRunner.after_all (st : RegState) (h : Option Exn) : RegOutcome :=
  match st.suite_stack with
  | [] => .raised "afterAll() must be called inside a describe() block" st
  | cur :: rest => .ok ⟨cur.addHook .afterAll h :: rest, st.root_suites⟩

mutual
/-- A registration call of a test script, by behaviour: `describe(name,
body)` with a nested script, `it(name, test_func)`, or one of the four hook
registrars. -/
inductive RegCmd where
  | describeCmd (name : String) (body : CmdList)
  | itCmd (name : String) (test_func : Option Exn)
  | beforeEachCmd (h : Option Exn)
  | beforeAllCmd (h : Option Exn)
  | afterEachCmd (h : Option Exn)
  | afterAllCmd (h : Option Exn)
deriving DecidableEq

/-- A sequence of registration calls. -/
inductive CmdList where
  | nil
  | cons (c : RegCmd) (rest : CmdList)
deriving DecidableEq
end

mutual
/-- Interpretation of one registration call against the runner state.  For
`describe` this is the source `TestRunner.describe`: push a fresh suite as
current, synchronously interpret the whole body before returning, pop, and
attach the built suite to the previous current suite's children — or to the
root suite list when there was no current suite.  A raise inside the body
propagates: `describe` catches nothing.  The `"corrupt suite stack"` branch
is unreachable (see `runRegs_frame`); it corresponds to no source
behaviour. -/
def runReg (st : RegState) : RegCmd → RegOutcome
  | .itCmd n tf => TestRunner.it st n tf
  | .beforeEachCmd h => TestRunner.before_each st h
  | .beforeAllCmd h => TestRunner.before_all st h
  | .afterEachCmd h => TestRunner.after_each st h
  | .afterAllCmd h => TestRunner.after_all st h
  | .describeCmd name body =>
    match runRegs ⟨TestSuite.empty name :: st.suite_stack, st.root_suites⟩ body with
    | .raised m st2 => .raised m st2
    | .ok st2 =>
      match st2.suite_stack with
      | [] => .raised "corrupt suite stack" st2
      | built :: rest =>
        match rest with
        | [] => .ok ⟨[], st2.root_suites.snoc built⟩
        | cur :: rest2 => .ok ⟨cur.addChild built :: rest2, st2.root_suites⟩

/-- Sequencing of registration calls: an uncaught raise aborts the rest of
the script. -/
def runRegs (st : RegState) : CmdList → RegOutcome
  | .nil => .ok st
  | .cons c cs =>
    match runReg st c with
    | .raised m st2 => .raised m st2
    | .ok st2 => runRegs st2 cs
end

mutual
/-- The effect of one registration call on the suite it is made inside: the
collapsed, always-succeeding form of `runReg` for a non-empty stack
(`runRegs_frame` proves the two agree). -/
def applyCmd (s : TestSuite) : RegCmd → TestSuite
  | .itCmd n tf => s.addTest ⟨n, tf⟩
  | .beforeEachCmd h => s.addHook .beforeEach h
  | .beforeAllCmd h => s.addHook .beforeAll h
  | .afterEachCmd h => s.addHook .afterEach h
  | .afterAllCmd h => s.addHook .afterAll h
  | .describeCmd name body => s.addChild (applyCmds (TestSuite.empty name) body)

/-- The effect of a registration script on the suite it is made inside. -/
def applyCmds (s : TestSuite) : CmdList → TestSuite
  | .nil => s
  | .cons c cs => applyCmds (applyCmd s c) cs
end

/-! ## Theorems -/

@[simp]
theorem applyTrace_nil (res : TestResult) : applyTrace res [] = res := by
  simp [applyTrace, tracePassed, traceFailed, traceErrors]

theorem applyTrace_append (res : TestResult) (a b : List Event) :
    applyTrace res (a ++ b) = applyTrace (applyTrace res a) b := by
  simp [applyTrace, tracePassed, traceFailed, traceErrors, List.countP_append,
    Nat.add_assoc, List.append_assoc]

theorem applyTrace_cons (res : TestResult) (e : Event) (tr : List Event) :
    applyTrace res (e :: tr) = applyTrace (applyTrace res [e]) tr := by
  have h := applyTrace_append res [e] tr
  simpa using h

theorem runHooksFrom_spec (kind : HookKind) (ctxName : String) (path : List Nat)
    (hooks : List (Option Exn)) : ∀ (res : TestResult) (i : Nat),
    runHooksFrom res hooks i kind ctxName path =
      (applyTrace res (hookEventsFrom path kind ctxName i hooks),
       hookEventsFrom path kind ctxName i hooks) := by
  induction hooks with
  | nil => intro res i; simp [runHooksFrom, hookEventsFrom]
  | cons h rest ih =>
    intro res i
    cases h with
    | none =>
      rw [runHooksFrom, hookEventsFrom, ih]
      rw [applyTrace_cons res (Event.hookRun path kind i ctxName none)]
      have hres : applyTrace res [Event.hookRun path kind i ctxName none] = res := by
        simp [applyTrace, tracePassed, traceFailed, traceErrors, eventErrors,
          Event.isPass, Event.isFail]
      rw [hres]
    | some ex =>
      rw [runHooksFrom, hookEventsFrom, ih]
      rw [applyTrace_cons res (Event.hookRun path kind i ctxName (some ex))]
      have hres : applyTrace res [Event.hookRun path kind i ctxName (some ex)]
          = { res with errors := res.errors ++ [hookErrorMsg kind ctxName ex.msg] } := by
        simp [applyTrace, tracePassed, traceFailed, traceErrors, eventErrors,
          Event.isPass, Event.isFail]
      rw [hres]

theorem runHooks_spec (res : TestResult) (hooks : List (Option Exn)) (kind : HookKind)
    (ctxName : String) (path : List Nat) :
    runHooks res hooks kind ctxName path =
      (applyTrace res (hookEventsFrom path kind ctxName 0 hooks),
       hookEventsFrom path kind ctxName 0 hooks) := by
  rw [runHooks, runHooksFrom_spec]

theorem runTestBody_spec (res : TestResult) (t : Test) (i : Nat) (path : List Nat) :
    runTestBody res t i path = (applyTrace res (testEvents path i t), testEvents path i t) := by
  cases htf : t.test_func with
  | none =>
    simp [runTestBody, testEvents, htf, applyTrace, tracePassed, traceFailed,
      traceErrors, eventErrors, Event.isPass, Event.isFail]
  | some ex =>
    simp [runTestBody, testEvents, htf, applyTrace, tracePassed, traceFailed,
      traceErrors, eventErrors, Event.isPass, Event.isFail]

theorem runTestsFrom_spec (beh aeh : List (Option Exn)) (path : List Nat)
    (ts : List Test) : ∀ (res : TestResult) (i : Nat),
    runTestsFrom res beh aeh ts i path =
      (applyTrace res (testsTraceFrom beh aeh path i ts), testsTraceFrom beh aeh path i ts) := by
  induction ts with
  | nil => intro res i; simp [runTestsFrom, testsTraceFrom]
  | cons t rest ih =>
    intro res i
    rw [runTestsFrom, testsTraceFrom]
    rw [runHooks_spec, runTestBody_spec, runHooks_spec, ih]
    simp only [applyTrace_append, List.append_assoc]

mutual
/-- Characterization of `run_suite`: its trace is exactly `suiteTrace` (in
particular independent of the incoming accumulator), and the accumulator is
transformed by exactly the effect of that trace. -/
theorem run_suite_spec (s : TestSuite) :
    ∀ (res : TestResult) (path : List Nat),
    run_suite res s path = (applyTrace res (suiteTrace s path), suiteTrace s path) := by
  cases s with
  | mk name tests beh bah aeh aah children =>
    intro res path
    rw [run_suite, suiteTrace]
    rw [runHooks_spec, runTestsFrom_spec, runNested_spec children, runHooks_spec]
    rw [applyTrace_cons]
    have hline : applyTrace res [Event.suiteLine path name] = res := by
      simp [applyTrace, tracePassed, traceFailed, traceErrors, eventErrors,
        Event.isPass, Event.isFail]
    rw [hline]
    simp only [applyTrace_append, List.append_assoc]

/-- Characterization of the nested-suite loop, mutually with
`run_suite_spec`. -/
theorem runNested_spec (ss : SuiteList) :
    ∀ (res : TestResult) (i : Nat) (path : List Nat),
    runNested res ss i path = (applyTrace res (nestedTrace ss i path), nestedTrace ss i path) := by
  cases ss with
  | nil => intro res i path; simp [runNested, nestedTrace]
  | cons c rest =>
    intro res i path
    rw [runNested, nestedTrace]
    rw [run_suite_spec c, runNested_spec rest]
    simp only [applyTrace_append]
end

theorem nestedTrace_eq_flatten (ss : SuiteList) : ∀ (i : Nat) (path : List Nat),
    nestedTrace ss i path =
      ((List.enumFrom i ss.toList).map (fun q => suiteTrace q.2 (path ++ [q.1]))).flatten := by
  cases ss with
  | nil => intro i path; simp [nestedTrace, SuiteList.toList]
  | cons c rest =>
    intro i path
    rw [nestedTrace, SuiteList.toList, nestedTrace_eq_flatten rest]
    simp [List.enumFrom]

/-- Claim C1: for every suite node, `run_suite` executes it depth-first and
left-to-right in this exact sequence — the suite's report line, every
`beforeAll` hook in registration order, then for each direct test in
registration order its `beforeEach` hooks, its body and its `afterEach`
hooks, then each child suite recursively in registration order, and finally
every `afterAll` hook in registration order; children run only after all of
the suite's own tests (and the emitted sequence does not depend on the
incoming accumulator). -/
theorem C1_run_suite_order (res : TestResult) (s : TestSuite) (path : List Nat) :
    (run_suite res s path).2 =
      Event.suiteLine path s.name ::
        (hookEventsFrom path .beforeAll s.name 0 s.before_all_hooks
          ++ testsTraceFrom s.before_each_hooks s.after_each_hooks path 0 s.tests
          ++ ((List.enumFrom 0 s.nested_suites.toList).map
                (fun q => (run_suite res q.2 (path ++ [q.1])).2)).flatten
          ++ hookEventsFrom path .afterAll s.name 0 s.after_all_hooks) := by
  have hmap : ∀ (l : List (Nat × TestSuite)),
      (l.map (fun q => (run_suite res q.2 (path ++ [q.1])).2))
        = (l.map (fun q => suiteTrace q.2 (path ++ [q.1]))) := by
    intro l
    simp [run_suite_spec]
  cases s with
  | mk name tests beh bah aeh aah children =>
    rw [run_suite_spec]
    simp only [TestSuite.name, TestSuite.tests, TestSuite.before_each_hooks,
      TestSuite.before_all_hooks, TestSuite.after_each_hooks, TestSuite.after_all_hooks,
      TestSuite.nested_suites, hmap]
    rw [← nestedTrace_eq_flatten children 0 path, suiteTrace]

/-- Claim C2: every raised hook error is caught at that invocation's
boundary and recorded: the accumulated error list is exactly the trace's
error strings (one entry per failing hook, built by `hookErrorMsg` from the
hook kind and the suite or test name, plus one entry per failing test body),
the `failed` counter counts exactly the raising test bodies, and every
failing hook invocation in the trace has its formatted entry in the
result's error list. -/
theorem C2_hook_failures_recorded (roots : SuiteList) :
    ((run roots).result.errors = traceErrors (run roots).trace) ∧
    ((run roots).result.failed = traceFailed (run roots).trace) ∧
    ∀ (p : List Nat) (k : HookKind) (i : Nat) (n : String) (ex : Exn),
      Event.hookRun p k i n (some ex) ∈ (run roots).trace →
        hookErrorMsg k n ex.msg ∈ (run roots).result.errors := by
  have hrun : run roots =
      { result := applyTrace TestResult.init (nestedTrace roots 0 []),
        trace := nestedTrace roots 0 [],
        summary := summaryLines (applyTrace TestResult.init (nestedTrace roots 0 [])),
        returnValue := (applyTrace TestResult.init (nestedTrace roots 0 [])).failed == 0 } := by
    simp only [run, runNested_spec]
  rw [hrun]
  refine ⟨?_, ?_, ?_⟩
  · simp [applyTrace, TestResult.init]
  · simp [applyTrace, TestResult.init]
  · intro p k i n ex hmem
    simp only at hmem
    have hin : hookErrorMsg k n ex.msg ∈ traceErrors (nestedTrace roots 0 []) := by
      unfold traceErrors
      rw [List.mem_flatten]
      exact ⟨eventErrors (Event.hookRun p k i n (some ex)),
        List.mem_map_of_mem _ hmem, by simp [eventErrors]⟩
    simp [applyTrace, TestResult.init, hin]

/-- Witness for C2 at a concrete input: a root suite whose only `beforeAll`
hook raises `ValueError("boom")` yields the recorded entry
`beforeAll hook failed in 'S': boom`. -/
theorem C2_hook_failures_recorded_witness :
    hookErrorMsg .beforeAll "S" "boom" ∈
      (run (.cons (.mk "S" [] [] [some ⟨"ValueError", "boom"⟩] [] [] .nil) .nil)).result.errors :=
  (C2_hook_failures_recorded
      (.cons (.mk "S" [] [] [some ⟨"ValueError", "boom"⟩] [] [] .nil) .nil)).2.2
    [0] .beforeAll 0 "S" ⟨"ValueError", "boom"⟩ (by decide)

theorem traceFailed_append (a b : List Event) :
    traceFailed (a ++ b) = traceFailed a + traceFailed b := by
  simp [traceFailed, List.countP_append]

theorem traceFailed_cons (e : Event) (tr : List Event) :
    traceFailed (e :: tr) = traceFailed tr + (if e.isFail then 1 else 0) := by
  simp [traceFailed, List.countP_cons]

theorem traceFailed_hookEventsFrom (path : List Nat) (kind : HookKind) (n : String) :
    ∀ (i : Nat) (hooks : List (Option Exn)),
    traceFailed (hookEventsFrom path kind n i hooks) = 0 := by
  intro i hooks
  induction hooks generalizing i with
  | nil => simp [hookEventsFrom, traceFailed]
  | cons h rest ih => simp [hookEventsFrom, traceFailed_cons, Event.isFail, ih]

theorem traceFailed_testEvents (path : List Nat) (i : Nat) (t : Test) :
    traceFailed (testEvents path i t) = (if t.test_func.isSome then 1 else 0) := by
  cases h : t.test_func <;>
    simp [testEvents, h, traceFailed, List.countP_cons, Event.isFail]

theorem traceFailed_testsTraceFrom (beh aeh : List (Option Exn)) (path : List Nat) :
    ∀ (i : Nat) (ts : List Test),
    traceFailed (testsTraceFrom beh aeh path i ts) = ts.countP (fun t => t.test_func.isSome) := by
  intro i ts
  induction ts generalizing i with
  | nil => simp [testsTraceFrom, traceFailed]
  | cons t rest ih =>
    rw [testsTraceFrom]
    simp [traceFailed_append, traceFailed_hookEventsFrom, traceFailed_testEvents, ih,
      List.countP_cons]
    omega

mutual
theorem traceFailed_suiteTrace (s : TestSuite) : ∀ (path : List Nat),
    traceFailed (suiteTrace s path) = suiteFailCount s := by
  cases s with
  | mk name tests beh bah aeh aah children =>
    intro path
    rw [suiteTrace, suiteFailCount]
    rw [traceFailed_cons]
    rw [traceFailed_append, traceFailed_append, traceFailed_append]
    rw [traceFailed_hookEventsFrom, traceFailed_hookEventsFrom, traceFailed_testsTraceFrom]
    rw [traceFailed_nestedTrace children 0 path]
    simp [Event.isFail]

theorem traceFailed_nestedTrace (ss : SuiteList) : ∀ (i : Nat) (path : List Nat),
    traceFailed (nestedTrace ss i path) = listFailCount ss := by
  cases ss with
  | nil => intro i path; simp [nestedTrace, listFailCount, traceFailed]
  | cons c rest =>
    intro i path
    rw [nestedTrace, listFailCount, traceFailed_append]
    rw [traceFailed_suiteTrace c, traceFailed_nestedTrace rest]
end

/-- Claim C5: `run()` builds the summary from the accumulated result and
returns `true` exactly when the `failed` counter is zero; since `failed`
counts only raising test bodies, a run in which no test body raises returns
`true` no matter how many hooks failed along the way. -/
theorem C5_run_return_value (roots : SuiteList) :
    ((run roots).summary = summaryLines (run roots).result) ∧
    ((run roots).returnValue = true ↔ (run roots).result.failed = 0) ∧
    (listFailCount roots = 0 → (run roots).returnValue = true) := by
  have hrun : run roots =
      { result := applyTrace TestResult.init (nestedTrace roots 0 []),
        trace := nestedTrace roots 0 [],
        summary := summaryLines (applyTrace TestResult.init (nestedTrace roots 0 [])),
        returnValue := (applyTrace TestResult.init (nestedTrace roots 0 [])).failed == 0 } := by
    simp only [run, runNested_spec]
  rw [hrun]
  refine ⟨rfl, ?_, ?_⟩
  · simp [applyTrace, TestResult.init]
  · intro hzero
    simp [applyTrace, TestResult.init, traceFailed_nestedTrace, hzero]

/-- Witness for C5 at a concrete input: a suite whose `beforeAll`,
`beforeEach`, `afterEach` and `afterAll` hooks all raise but whose single
test body passes still makes `run()` return `true`. -/
theorem C5_run_return_value_witness :
    (run (.cons (.mk "S" [⟨"t", none⟩] [some ⟨"E", "a"⟩] [some ⟨"E", "b"⟩]
        [some ⟨"E", "c"⟩] [some ⟨"E", "d"⟩] .nil) .nil)).returnValue = true :=
  (C5_run_return_value
      (.cons (.mk "S" [⟨"t", none⟩] [some ⟨"E", "a"⟩] [some ⟨"E", "b"⟩]
        [some ⟨"E", "c"⟩] [some ⟨"E", "d"⟩] .nil) .nil)).2.2 (by decide)

/-- Claim C4 (counterexample): the claim says the summary always contains a
line matching `Passed: <int>` regardless of the counter values.  In the run
of a single suite whose only test fails, `passed = 0`, and the source prints
the `Passed:` line only under `if self.result.passed > 0:` — no summary line
of this run contains `Passed: ` at all. -/
theorem C4_summary_counterexample :
    ((run (.cons (.mk "M" [⟨"t", some ⟨"AssertionError", "boom"⟩⟩] [] [] [] [] .nil)
        .nil)).summary.all
      (fun l => !(decide ("Passed: ".data <:+: l.data)))) = true := by decide

/-- Claim C4 as amended: the summary contains the line `Passed: <passed>`
when `passed > 0` and the line `Failed: <failed>` when `failed > 0` (each
wrapped in its colour codes), always contains `Total: <passed + failed>`,
and if any test failed it ends with a `Failures:` block listing each
recorded error string in order. -/
theorem C4_summary_lines (roots : SuiteList) :
    (0 < (run roots).result.passed →
      (Colors.GREEN ++ "Passed: " ++ toString (run roots).result.passed ++ Colors.RESET)
        ∈ (run roots).summary) ∧
    (0 < (run roots).result.failed →
      (Colors.RED ++ "Failed: " ++ toString (run roots).result.failed ++ Colors.RESET)
        ∈ (run roots).summary) ∧
    (("Total: " ++ toString ((run roots).result.passed + (run roots).result.failed))
        ∈ (run roots).summary) ∧
    (0 < (run roots).result.failed →
      (("\n" ++ Colors.RED ++ "Failures:" ++ Colors.RESET)
          :: (run roots).result.errors.map
              (fun e => "  " ++ Colors.RED ++ "✗" ++ Colors.RESET ++ " " ++ e))
        <:+ (run roots).summary) := by
  have hsum : (run roots).summary = summaryLines (run roots).result := by
    simp [run]
  rw [hsum]
  generalize (run roots).result = res
  unfold summaryLines
  refine ⟨?_, ?_, ?_, ?_⟩
  · intro h
    simp [h]
  · intro h
    simp [h]
  · simp
  · intro h
    simp only [gt_iff_lt, h, if_true]
    exact List.suffix_append _ _

/-- Witness for C4 as amended, at a run with one passing and one failing
test: the `Failed: 1` line is present and the `Failures:` block is the tail
of the summary. -/
theorem C4_summary_lines_witness :
    (Colors.RED ++ "Failed: 1" ++ Colors.RESET)
      ∈ (run (.cons (.mk "M" [⟨"a", none⟩, ⟨"b", some ⟨"E", "x"⟩⟩] [] [] [] [] .nil)
          .nil)).summary :=
  (C4_summary_lines
      (.cons (.mk "M" [⟨"a", none⟩, ⟨"b", some ⟨"E", "x"⟩⟩] [] [] [] [] .nil) .nil)).2.1
    (by decide)

theorem countHookRuns_cons (e : Event) (tr : List Event) (p : List Nat) (k : HookKind)
    (i : Nat) :
    countHookRuns (e :: tr) p k i
      = countHookRuns tr p k i + (if e.matchesHook p k i then 1 else 0) := by
  simp [countHookRuns, List.countP_cons]

theorem countHookRuns_append (a b : List Event) (p : List Nat) (k : HookKind) (i : Nat) :
    countHookRuns (a ++ b) p k i = countHookRuns a p k i + countHookRuns b p k i := by
  simp [countHookRuns, List.countP_append]

theorem countHookRuns_eq_zero (tr : List Event) (p : List Nat) (k : HookKind) (i : Nat)
    (h : ∀ e ∈ tr, e.path ≠ p) : countHookRuns tr p k i = 0 := by
  rw [countHookRuns, List.countP_eq_zero]
  intro e he
  cases e with
  | hookRun p2 k2 i2 n2 o2 =>
    have hp := h _ he
    simp only [Event.path] at hp
    simp [Event.matchesHook, hp]
  | suiteLine p2 n2 => simp [Event.matchesHook]
  | testPass p2 i2 n2 => simp [Event.matchesHook]
  | testFail p2 i2 n2 m2 => simp [Event.matchesHook]

theorem path_of_mem_hookEventsFrom (path : List Nat) (kind : HookKind) (n : String) :
    ∀ (j : Nat) (hooks : List (Option Exn)) (e : Event),
    e ∈ hookEventsFrom path kind n j hooks → e.path = path := by
  intro j hooks
  induction hooks generalizing j with
  | nil => intro e he; simp [hookEventsFrom] at he
  | cons h rest ih =>
    intro e he
    rw [hookEventsFrom] at he
    rcases List.mem_cons.mp he with heq | htail
    · rw [heq, Event.path]
    · exact ih (j + 1) e htail

theorem path_of_mem_testEvents (path : List Nat) (i : Nat) (t : Test) (e : Event) :
    e ∈ testEvents path i t → e.path = path := by
  intro he
  cases ht : t.test_func <;> rw [testEvents, ht] at he <;>
    simp only [List.mem_singleton] at he <;> rw [he, Event.path]

theorem path_of_mem_testsTraceFrom (beh aeh : List (Option Exn)) (path : List Nat) :
    ∀ (j : Nat) (ts : List Test) (e : Event),
    e ∈ testsTraceFrom beh aeh path j ts → e.path = path := by
  intro j ts
  induction ts generalizing j with
  | nil => intro e he; simp [testsTraceFrom] at he
  | cons t rest ih =>
    intro e he
    rw [testsTraceFrom] at he
    rcases List.mem_append.mp he with h1 | h4
    · rcases List.mem_append.mp h1 with h2 | h3
      · rcases List.mem_append.mp h2 with h5 | h6
        · exact path_of_mem_hookEventsFrom path .beforeEach t.name 0 beh e h5
        · exact path_of_mem_testEvents path j t e h6
      · exact path_of_mem_hookEventsFrom path .afterEach t.name 0 aeh e h3
    · exact ih (j + 1) e h4

mutual
theorem path_of_mem_suiteTrace (s : TestSuite) :
    ∀ (path : List Nat) (e : Event), e ∈ suiteTrace s path →
      ∃ t2, e.path = path ++ t2 := by
  cases s with
  | mk name tests beh bah aeh aah children =>
    intro path e he
    rw [suiteTrace] at he
    rcases List.mem_cons.mp he with heq | hrest
    · exact ⟨[], by rw [heq, Event.path, List.append_nil]⟩
    · rcases List.mem_append.mp hrest with h1 | h4
      · rcases List.mem_append.mp h1 with h2 | h3
        · rcases List.mem_append.mp h2 with h5 | h6
          · exact ⟨[], by
              rw [path_of_mem_hookEventsFrom path .beforeAll name 0 bah e h5, List.append_nil]⟩
          · exact ⟨[], by
              rw [path_of_mem_testsTraceFrom beh aeh path 0 tests e h6, List.append_nil]⟩
        · obtain ⟨j2, t2, _, hp⟩ := path_of_mem_nestedTrace children 0 path e h3
          exact ⟨j2 :: t2, hp⟩
      · exact ⟨[], by
          rw [path_of_mem_hookEventsFrom path .afterAll name 0 aah e h4, List.append_nil]⟩

theorem path_of_mem_nestedTrace (ss : SuiteList) :
    ∀ (j : Nat) (path : List Nat) (e : Event), e ∈ nestedTrace ss j path →
      ∃ j2 t2, j ≤ j2 ∧ e.path = path ++ j2 :: t2 := by
  cases ss with
  | nil => intro j path e he; simp [nestedTrace] at he
  | cons c rest =>
    intro j path e he
    rw [nestedTrace] at he
    rcases List.mem_append.mp he with h1 | h2
    · obtain ⟨t2, hp⟩ := path_of_mem_suiteTrace c (path ++ [j]) e h1
      refine ⟨j, t2, Nat.le_refl j, ?_⟩
      rw [hp, List.append_assoc, List.singleton_append]
    · obtain ⟨j2, t2, hj, hp⟩ := path_of_mem_nestedTrace rest (j + 1) path e h2
      exact ⟨j2, t2, by omega, hp⟩
end

theorem countHookRuns_hookEventsFrom (path : List Nat) (kind : HookKind) (n : String)
    (k : HookKind) (i : Nat) : ∀ (j : Nat) (hooks : List (Option Exn)),
    countHookRuns (hookEventsFrom path kind n j hooks) path k i
      = if k = kind ∧ j ≤ i ∧ i < j + hooks.length then 1 else 0 := by
  intro j hooks
  induction hooks generalizing j with
  | nil =>
    rw [hookEventsFrom]
    simp only [countHookRuns, List.countP_nil, List.length_nil]
    split_ifs with h
    · omega
    · rfl
  | cons h rest ih =>
    rw [hookEventsFrom, countHookRuns_cons, ih (j + 1)]
    by_cases hk : k = kind
    · subst hk
      simp only [Event.matchesHook, beq_self_eq_true, Bool.true_and, Bool.and_eq_true,
        beq_iff_eq, true_and, List.length_cons]
      split_ifs <;> omega
    · have hk2 : kind ≠ k := fun h2 => hk h2.symm
      simp [Event.matchesHook, hk, hk2]

theorem countHookRuns_testEvents (path : List Nat) (j : Nat) (t : Test) (p : List Nat)
    (k : HookKind) (i : Nat) : countHookRuns (testEvents path j t) p k i = 0 := by
  cases ht : t.test_func <;>
    simp [testEvents, ht, countHookRuns, List.countP_cons, Event.matchesHook]

theorem countHookRuns_testsTraceFrom (beh aeh : List (Option Exn)) (path : List Nat)
    (k : HookKind) (i : Nat) : ∀ (j : Nat) (ts : List Test),
    countHookRuns (testsTraceFrom beh aeh path j ts) path k i
      = ts.length * perTestHookCount beh aeh k i := by
  intro j ts
  induction ts generalizing j with
  | nil => simp [testsTraceFrom, countHookRuns]
  | cons t rest ih =>
    rw [testsTraceFrom, countHookRuns_append, countHookRuns_append, countHookRuns_append,
      countHookRuns_hookEventsFrom, countHookRuns_hookEventsFrom,
      countHookRuns_testEvents, ih (j + 1)]
    cases k with
    | beforeAll => simp [perTestHookCount]
    | afterAll => simp [perTestHookCount]
    | beforeEach =>
      simp only [perTestHookCount, List.length_cons]
      split_ifs with h1 h2 <;> simp_all
      omega
    | afterEach =>
      simp only [perTestHookCount, List.length_cons]
      split_ifs with h1 h2 <;> simp_all
      omega

theorem countHookRuns_suiteTrace_self (s : TestSuite) (path : List Nat) (k : HookKind)
    (i : Nat) : countHookRuns (suiteTrace s path) path k i = ownHookRuns s k i := by
  cases s with
  | mk name tests beh bah aeh aah children =>
    rw [suiteTrace, countHookRuns_cons, countHookRuns_append, countHookRuns_append,
      countHookRuns_append, countHookRuns_hookEventsFrom, countHookRuns_hookEventsFrom,
      countHookRuns_testsTraceFrom]
    have hnested : countHookRuns (nestedTrace children 0 path) path k i = 0 := by
      apply countHookRuns_eq_zero
      intro e he
      obtain ⟨j2, t2, _, hp⟩ := path_of_mem_nestedTrace children 0 path e he
      rw [hp]
      intro heq
      have hl := congrArg List.length heq
      rw [List.length_append, List.length_cons] at hl
      omega
    rw [hnested]
    have hline : (Event.suiteLine path name).matchesHook path k i = false := rfl
    rw [hline]
    cases k <;>
      simp [ownHookRuns, perTestHookCount, TestSuite.before_all_hooks,
        TestSuite.before_each_hooks, TestSuite.after_each_hooks, TestSuite.after_all_hooks,
        TestSuite.tests, Nat.mul_comm]

mutual
theorem countHookRuns_at_suite (s : TestSuite) :
    ∀ (p0 rel : List Nat) (s2 : TestSuite) (k : HookKind) (i : Nat),
    suiteAtPath s rel = some s2 →
    countHookRuns (suiteTrace s p0) (p0 ++ rel) k i = ownHookRuns s2 k i := by
  cases s with
  | mk name tests beh bah aeh aah children =>
    intro p0 rel s2 k i h
    cases rel with
    | nil =>
      rw [suiteAtPath] at h
      injection h with h2
      rw [List.append_nil, ← h2]
      exact countHookRuns_suiteTrace_self _ p0 k i
    | cons q rest =>
      rw [suiteAtPath] at h
      rw [suiteTrace, countHookRuns_cons, countHookRuns_append, countHookRuns_append,
        countHookRuns_append]
      have hzero : ∀ (tr : List Event), (∀ e ∈ tr, e.path = p0) →
          countHookRuns tr (p0 ++ q :: rest) k i = 0 := by
        intro tr hmem
        apply countHookRuns_eq_zero
        intro e he
        rw [hmem e he]
        intro heq
        have hl := congrArg List.length heq
        rw [List.length_append, List.length_cons] at hl
        omega
      have hA := hzero (hookEventsFrom p0 .beforeAll name 0 bah)
        (fun e he => path_of_mem_hookEventsFrom p0 .beforeAll name 0 bah e he)
      have hT := hzero (testsTraceFrom beh aeh p0 0 tests)
        (fun e he => path_of_mem_testsTraceFrom beh aeh p0 0 tests e he)
      have hZ := hzero (hookEventsFrom p0 .afterAll name 0 aah)
        (fun e he => path_of_mem_hookEventsFrom p0 .afterAll name 0 aah e he)
      have hN := countHookRuns_at_list children 0 p0 q rest s2 k i h
      rw [Nat.zero_add] at hN
      have hline : (Event.suiteLine p0 name).matchesHook (p0 ++ q :: rest) k i = false := rfl
      rw [hA, hT, hZ, hN, hline]
      simp

theorem countHookRuns_at_list (ss : SuiteList) :
    ∀ (j : Nat) (p0 : List Nat) (idx : Nat) (rel : List Nat) (s2 : TestSuite)
      (k : HookKind) (i : Nat),
    suiteListAt ss idx rel = some s2 →
    countHookRuns (nestedTrace ss j p0) (p0 ++ (j + idx) :: rel) k i = ownHookRuns s2 k i := by
  cases ss with
  | nil =>
    intro j p0 idx rel s2 k i h
    rw [suiteListAt] at h
    simp at h
  | cons c tail =>
    intro j p0 idx rel s2 k i h
    cases idx with
    | zero =>
      rw [suiteListAt] at h
      rw [nestedTrace, countHookRuns_append, Nat.add_zero]
      have h1 := countHookRuns_at_suite c (p0 ++ [j]) rel s2 k i h
      rw [List.append_assoc, List.singleton_append] at h1
      have h2 : countHookRuns (nestedTrace tail (j + 1) p0) (p0 ++ j :: rel) k i = 0 := by
        apply countHookRuns_eq_zero
        intro e he
        obtain ⟨j2, t2, hj, hp⟩ := path_of_mem_nestedTrace tail (j + 1) p0 e he
        rw [hp]
        intro heq
        have hc := List.append_cancel_left heq
        injection hc with hc1 hc2
        omega
      rw [h1, h2]
      simp
    | succ n =>
      rw [suiteListAt] at h
      rw [nestedTrace, countHookRuns_append]
      have h1 : countHookRuns (suiteTrace c (p0 ++ [j])) (p0 ++ (j + (n + 1)) :: rel) k i
          = 0 := by
        apply countHookRuns_eq_zero
        intro e he
        obtain ⟨t2, hp⟩ := path_of_mem_suiteTrace c (p0 ++ [j]) e he
        rw [hp]
        intro heq
        rw [List.append_assoc, List.singleton_append] at heq
        have hc := List.append_cancel_left heq
        injection hc with hc1 hc2
        omega
      have h2 := countHookRuns_at_list tail (j + 1) p0 n rel s2 k i h
      have hidx : j + 1 + n = j + (n + 1) := by omega
      rw [hidx] at h2
      rw [h1, h2]
      simp
end

/-- Claim C6: each `beforeEach` and each `afterEach` hook of a suite with N
direct tests runs exactly N times in the whole run — once per direct test of
that suite and never for tests of descendant suites (the count over the
entire run's trace is exactly N), and since the count holds whatever the test
bodies do, a raising test body does not suppress that test's own `afterEach`
hooks. -/
theorem C6_each_hooks_once_per_direct_test (roots : SuiteList) (p : List Nat) (s : TestSuite)
    (h : rootAt roots p = some s) :
    (∀ i, i < s.before_each_hooks.length →
        countHookRuns (run roots).trace p .beforeEach i = s.tests.length) ∧
    (∀ i, i < s.after_each_hooks.length →
        countHookRuns (run roots).trace p .afterEach i = s.tests.length) := by
  have htr : (run roots).trace = nestedTrace roots 0 [] := by
    simp [run, runNested_spec]
  cases p with
  | nil => rw [rootAt] at h; simp at h
  | cons q rest =>
    rw [rootAt] at h
    constructor
    · intro i hi
      have hc := countHookRuns_at_list roots 0 [] q rest s .beforeEach i h
      rw [Nat.zero_add, List.nil_append] at hc
      rw [htr, hc, ownHookRuns, if_pos hi]
    · intro i hi
      have hc := countHookRuns_at_list roots 0 [] q rest s .afterEach i h
      rw [Nat.zero_add, List.nil_append] at hc
      rw [htr, hc, ownHookRuns, if_pos hi]

/-- Witness for C6 at a concrete input: a root suite with two direct tests
(one of them failing), one raising `beforeEach` hook and one `afterEach`
hook, plus a child suite with three tests of its own — the root's
`beforeEach` hook and `afterEach` hook each run exactly twice. -/
theorem C6_each_hooks_once_per_direct_test_witness :
    countHookRuns
        (run (.cons (.mk "A" [⟨"t1", none⟩, ⟨"t2", some ⟨"E", "x"⟩⟩] [some ⟨"HE", "h"⟩] []
            [none] []
            (.cons (.mk "B" [⟨"u1", none⟩, ⟨"u2", none⟩, ⟨"u3", none⟩] [] [] [] [] .nil)
              .nil)) .nil)).trace
        [0] .beforeEach 0 = 2 :=
  (C6_each_hooks_once_per_direct_test
      (.cons (.mk "A" [⟨"t1", none⟩, ⟨"t2", some ⟨"E", "x"⟩⟩] [some ⟨"HE", "h"⟩] []
        [none] []
        (.cons (.mk "B" [⟨"u1", none⟩, ⟨"u2", none⟩, ⟨"u3", none⟩] [] [] [] [] .nil)
          .nil)) .nil)
      [0]
      (.mk "A" [⟨"t1", none⟩, ⟨"t2", some ⟨"E", "x"⟩⟩] [some ⟨"HE", "h"⟩] [] [none] []
        (.cons (.mk "B" [⟨"u1", none⟩, ⟨"u2", none⟩, ⟨"u3", none⟩] [] [] [] [] .nil) .nil))
      (by decide)).1 0 (by decide)

/-- Claim C7: each `beforeAll` and each `afterAll` hook of every suite runs
exactly once per run, whatever the number of direct tests or child suites of
the suite (the count over the entire run's trace is exactly 1). -/
theorem C7_all_hooks_once_per_suite (roots : SuiteList) (p : List Nat) (s : TestSuite)
    (h : rootAt roots p = some s) :
    (∀ i, i < s.before_all_hooks.length →
        countHookRuns (run roots).trace p .beforeAll i = 1) ∧
    (∀ i, i < s.after_all_hooks.length →
        countHookRuns (run roots).trace p .afterAll i = 1) := by
  have htr : (run roots).trace = nestedTrace roots 0 [] := by
    simp [run, runNested_spec]
  cases p with
  | nil => rw [rootAt] at h; simp at h
  | cons q rest =>
    rw [rootAt] at h
    constructor
    · intro i hi
      have hc := countHookRuns_at_list roots 0 [] q rest s .beforeAll i h
      rw [Nat.zero_add, List.nil_append] at hc
      rw [htr, hc, ownHookRuns, if_pos hi]
    · intro i hi
      have hc := countHookRuns_at_list roots 0 [] q rest s .afterAll i h
      rw [Nat.zero_add, List.nil_append] at hc
      rw [htr, hc, ownHookRuns, if_pos hi]

/-- Witness for C7 at a concrete input: a root suite with zero tests but one
child suite, one raising `beforeAll` hook and one `afterAll` hook — both of
its all-hooks run exactly once. -/
theorem C7_all_hooks_once_per_suite_witness :
    countHookRuns
        (run (.cons (.mk "P" [] [] [some ⟨"E", "ba"⟩] [] [none]
            (.cons (.mk "C" [⟨"t", none⟩] [] [] [] [] .nil) .nil)) .nil)).trace
        [0] .beforeAll 0 = 1 ∧
    countHookRuns
        (run (.cons (.mk "P" [] [] [some ⟨"E", "ba"⟩] [] [none]
            (.cons (.mk "C" [⟨"t", none⟩] [] [] [] [] .nil) .nil)) .nil)).trace
        [0] .afterAll 0 = 1 :=
  ⟨(C7_all_hooks_once_per_suite
        (.cons (.mk "P" [] [] [some ⟨"E", "ba"⟩] [] [none]
          (.cons (.mk "C" [⟨"t", none⟩] [] [] [] [] .nil) .nil)) .nil)
        [0]
        (.mk "P" [] [] [some ⟨"E", "ba"⟩] [] [none]
          (.cons (.mk "C" [⟨"t", none⟩] [] [] [] [] .nil) .nil))
        (by decide)).1 0 (by decide),
   (C7_all_hooks_once_per_suite
        (.cons (.mk "P" [] [] [some ⟨"E", "ba"⟩] [] [none]
          (.cons (.mk "C" [⟨"t", none⟩] [] [] [] [] .nil) .nil)) .nil)
        [0]
        (.mk "P" [] [] [some ⟨"E", "ba"⟩] [] [none]
          (.cons (.mk "C" [⟨"t", none⟩] [] [] [] [] .nil) .nil))
        (by decide)).2 0 (by decide)⟩

mutual
/-- Inside an open suite a registration call never raises and only
elaborates the suite on top of the stack, leaving the rest of the stack and
the root list untouched. -/
theorem runReg_frame (c : RegCmd) :
    ∀ (top : TestSuite) (tail : List TestSuite) (roots : SuiteList),
    runReg ⟨top :: tail, roots⟩ c = .ok ⟨applyCmd top c :: tail, roots⟩ := by
  cases c with
  | itCmd n tf => intro top tail roots; rfl
  | beforeEachCmd h => intro top tail roots; rfl
  | beforeAllCmd h => intro top tail roots; rfl
  | afterEachCmd h => intro top tail roots; rfl
  | afterAllCmd h => intro top tail roots; rfl
  | describeCmd name body =>
    intro top tail roots
    have hb := runRegs_frame body (TestSuite.empty name) (top :: tail) roots
    rw [runReg, hb]
    rfl

/-- Script version of `runReg_frame`. -/
theorem runRegs_frame (cs : CmdList) :
    ∀ (top : TestSuite) (tail : List TestSuite) (roots : SuiteList),
    runRegs ⟨top :: tail, roots⟩ cs = .ok ⟨applyCmds top cs :: tail, roots⟩ := by
  cases cs with
  | nil => intro top tail roots; rfl
  | cons c cs2 =>
    intro top tail roots
    rw [runRegs, runReg_frame c, applyCmds]
    exact runRegs_frame cs2 (applyCmd top c) tail roots
end

/-- Claim C8: calling `it` or any of the four hook registrars while no suite
is open raises a `RuntimeError` naming the registrar (the source's
realization of the spec's `InvalidRegistrationError`), with the registration
state at the raise exactly the state before the call; when a suite is open,
the call appends the test or hook to the current suite's corresponding
ordered list and changes nothing else.  The error is not caught anywhere in
the engine: sequencing propagates it, aborting the remaining registration
script. -/
theorem C8_registration_requires_open_suite (st : RegState) (name : String)
    (tf h : Option Exn) :
    (st.suite_stack = [] →
      TestRunner.it st name tf
          = .raised "it() must be called inside a describe() block" st ∧
      TestRunner.before_each st h
          = .raised "beforeEach() must be called inside a describe() block" st ∧
      TestRunner.before_all st h
          = .raised "beforeAll() must be called inside a describe() block" st ∧
      TestRunner.after_each st h
          = .raised "afterEach() must be called inside a describe() block" st ∧
      TestRunner.after_all st h
          = .raised "afterAll() must be called inside a describe() block" st) ∧
    (∀ (cur : TestSuite) (rest : List TestSuite), st.suite_stack = cur :: rest →
      TestRunner.it st name tf
          = .ok ⟨cur.addTest ⟨name, tf⟩ :: rest, st.root_suites⟩ ∧
      TestRunner.before_each st h
          = .ok ⟨cur.addHook .beforeEach h :: rest, st.root_suites⟩ ∧
      TestRunner.before_all st h
          = .ok ⟨cur.addHook .beforeAll h :: rest, st.root_suites⟩ ∧
      TestRunner.after_each st h
          = .ok ⟨cur.addHook .afterEach h :: rest, st.root_suites⟩ ∧
      TestRunner.after_all st h
          = .ok ⟨cur.addHook .afterAll h :: rest, st.root_suites⟩) ∧
    (∀ (c : RegCmd) (cs : CmdList) (m : String) (st2 : RegState),
      runReg st c = .raised m st2 → runRegs st (.cons c cs) = .raised m st2) := by
  obtain ⟨stack, roots⟩ := st
  refine ⟨?_, ?_, ?_⟩
  · intro hempty
    simp only at hempty
    subst hempty
    exact ⟨rfl, rfl, rfl, rfl, rfl⟩
  · intro cur rest heq
    simp only at heq
    subst heq
    exact ⟨rfl, rfl, rfl, rfl, rfl⟩
  · intro c cs m st2 hr
    rw [runRegs, hr]

/-- Witness for C8 at a concrete input: with no suite open, `it` raises the
exact `RuntimeError` message and the state is unchanged. -/
theorem C8_registration_requires_open_suite_witness :
    TestRunner.it ⟨[], .nil⟩ "t" none
      = .raised "it() must be called inside a describe() block" ⟨[], .nil⟩ :=
  ((C8_registration_requires_open_suite ⟨[], .nil⟩ "t" none none).1 rfl).1

/-- Claim C9: `describe(name, body)` builds a new suite by running `body`
synchronously to completion against the fresh suite before returning, then
appends the finished suite to the previous current suite's children when a
current suite exists and to the root suite list otherwise, restoring the
previous current suite (the rest of the registration state is unchanged). -/
theorem C9_describe_builds_and_restores (st : RegState) (name : String) (body : CmdList) :
    runReg st (.describeCmd name body) =
      match st.suite_stack with
      | [] => .ok ⟨[], st.root_suites.snoc (applyCmds (TestSuite.empty name) body)⟩
      | cur :: rest =>
        .ok ⟨cur.addChild (applyCmds (TestSuite.empty name) body) :: rest,
          st.root_suites⟩ := by
  obtain ⟨stack, roots⟩ := st
  cases stack with
  | nil =>
    have hb := runRegs_frame body (TestSuite.empty name) [] roots
    rw [runReg, hb]
  | cons cur rest =>
    have hb := runRegs_frame body (TestSuite.empty name) (cur :: rest) roots
    rw [runReg, hb]

/-- Claim C10: the matchers `to_be` and `to_equal` are equivalent — for every
pair of actual and expected values they pass in exactly the same cases (both
test value equality via `!=`), and on failure they raise `AssertionError`
with messages differing only in the words "to be" versus "to equal". -/
theorem C10_to_be_to_equal_equivalent {α : Type} [BEq α] [ToString α]
    (e : Expectation α) (expected : α) :
    ((e.to_be expected = .ok e) ↔ (e.to_equal expected = .ok e)) ∧
    ((e.actual != expected) = true →
      e.to_be expected = .error ⟨"AssertionError",
        "Expected " ++ toString e.actual ++ " to be " ++ toString expected⟩ ∧
      e.to_equal expected = .error ⟨"AssertionError",
        "Expected " ++ toString e.actual ++ " to equal " ++ toString expected⟩) ∧
    ((e.actual != expected) = false →
      e.to_be expected = .ok e ∧ e.to_equal expected = .ok e) := by
  unfold Expectation.to_be Expectation.to_equal
  refine ⟨?_, ?_, ?_⟩
  · cases h : e.actual != expected <;> simp [h]
  · intro h
    simp [h]
  · intro h
    simp [h]

/-- Witness for C10 at a concrete input: `expect(1).to_be(2)` and
`expect(1).to_equal(2)` both fail, with the stated messages. -/
theorem C10_to_be_to_equal_equivalent_witness :
    (expect (1 : Nat)).to_be 2 = .error ⟨"AssertionError", "Expected 1 to be 2"⟩ ∧
    (expect (1 : Nat)).to_equal 2 = .error ⟨"AssertionError", "Expected 1 to equal 2"⟩ :=
  (C10_to_be_to_equal_equivalent (expect (1 : Nat)) 2).2.1 (by decide)

/-- Claim C3 concerns `expect(f).to_throw()` (no expected kind) for a callable
`f` whose invocation raises nothing: the spec requires this to fail with an
`AssertionError` saying the function was expected to throw.  The code instead
PASSES: its `raise AssertionError("Expected function to throw an exception,
but it didn't")` is written inside the `try` block, so the function's own
`except Exception` clause catches it, and with `expected_exception = None` the
handler falls through to `return self`.  This theorem evaluates the code at
the failing input, exhibiting the slip (status: code_bug). -/
theorem C3_to_throw_without_raise_passes :
    (expect (ThrowsSubject.callable none)).to_throw none =
      .ok (expect (ThrowsSubject.callable none)) := rfl

end Pypest
